import Mathlib

/-!
Shallow embedding of `ni/github.py` from brettcannon/the-knights-who-say-ni.

The module implements a GitHub webhook handler that reconciles a pull
request CLA status with a label and a comment.  We embed the pure decision
logic: the event classifier (`Host.process`), the response checker
(`Host.check_response`), the contributor resolver (`Host.usernames`), the
label helpers (`Host.current_label`, `Host.set_label`, `Host.remove_label`),
the commenter (`Host.comment`) and the reconciler (`Host.update`).

Network side effects are modelled as explicit `Mutation` values (label
POST, label DELETE, comment POST); read-only GET calls carry no mutation.
The observable GitHub-side state of a pull request is a `PRState` (its
labels and its comments), and `applyMutation` gives the GitHub semantics
of each mutation.
-/

set_option maxRecDepth 100000

namespace Ni

/-- The CLA label marker (`LABEL_PREFIX` in the source): every CLA-related
label starts with this string. -/
def LABEL_MARK : String := "CLA: "

/-- Label meaning that the CLA is signed (`CLA_OK` in the source). -/
def CLA_OK : String := LABEL_MARK ++ "☑"

/-- Label meaning that the CLA is missing (`NO_CLA` in the source). -/
def NO_CLA : String := LABEL_MARK ++ "☐"

/-- `NO_CLA_TEMPLATE.format(body=body)` from the source: the comment
template with the status-specific body spliced in. -/
def NO_CLA_TEMPLATE (body : String) : String :=
  "Hello, and thanks for your contribution!\n\n" ++ body ++
  "\n\nOnce you have done everything that\x27s needed, please reply here and someone will\nverify everything is in order.\n\nAlso, please read the\n[Python\x27s Developer Guide](https://docs.python.org/devguide/) if you have not\nalready.\n"

/-- Body used when a contributor has not signed the CLA. -/
def NO_CLA_BODY : String :=
  "Unfortunately our records indicate you have not signed a\n[PSF contributor agreement](https://www.python.org/psf/contrib/contrib-form/)\n(CLA). For legal reasons we need you to sign this before we can look at your\ncontribution."

/-- Body used when a contributor has no matching bugs.python.org account. -/
def NO_USERNAME_BODY : String :=
  "Unfortunately we couldn\x27t find an account corresponding\nto your GitHub username at [bugs.python.org](http://bugs.python.org/) (b.p.o).\nIf you don\x27t already have an account at b.p.o, please\n[create one](http://bugs.python.org/user?@template=register) and make sure to\nadd your GitHub username. If you do already have an account at b.p.o then\nplease go there and under \"Your Details\" add your GitHub username.\n\nAnd in case you haven\x27t already, please make sure to sign the\n[PSF contributor agreement](https://www.python.org/psf/contrib/contrib-form/)\n(CLA); we can\x27t legally look at your contribution until you have signed the\nCLA."

/-- `str.startswith`: membership test used on label names, phrased on the
underlying character lists. -/
def strStarts (s m : String) : Bool := m.data.isPrefixOf s.data

/-- Python string comparison (`sorted` uses it): lexicographic order on
the code points, phrased on the underlying character lists. -/
def strLe (a b : String) : Prop := a.data ≤ b.data

instance : DecidableRel strLe := fun a b =>
  inferInstanceAs (Decidable (a.data ≤ b.data))

instance : IsTotal String strLe := ⟨fun a b => le_total a.data b.data⟩

instance : IsTrans String strLe := ⟨fun _ _ _ h h2 => le_trans h h2⟩

/-- Modelled from the spec: `abc.Status`, the per-username / aggregated CLA
verdict (the `ni/abc.py` module is not under `src/`; the spec, section 3,
fixes the three values signed, not_signed, username_not_found). -/
inductive Status where
  | signed
  | not_signed
  | username_not_found
deriving DecidableEq, Repr

/-- The `PullRequestEvent` enum from the source (all eight GitHub pull
request actions). -/
inductive PullRequestEvent where
  | assigned
  | unassigned
  | labeled
  | unlabeled
  | opened
  | closed
  | reopened
  | synchronize
deriving DecidableEq, Repr

/-- The `.value` of each `PullRequestEvent` member: its wire string. -/
def PullRequestEvent.value : PullRequestEvent → String
  | .assigned => "assigned"
  | .unassigned => "unassigned"
  | .labeled => "labeled"
  | .unlabeled => "unlabeled"
  | .opened => "opened"
  | .closed => "closed"
  | .reopened => "reopened"
  | .synchronize => "synchronize"

/-- `Host._useful_actions`: the actions the webhook reacts to. -/
def _useful_actions : List String :=
  [PullRequestEvent.opened.value,
   PullRequestEvent.unlabeled.value,
   PullRequestEvent.synchronize.value]

/-- The fields of a webhook payload that `Host.process` consults:
whether a `zen` key is present (ping event), the `action` string, and
`label.name` (only read for `unlabeled` actions). -/
structure Payload where
  hasZen : Bool
  action : String
  labelName : String
deriving DecidableEq, Repr

/-- Outcome of `Host.process`: an early `abc.ResponseExit` carrying an
HTTP status, a constructed contribution tagged with its event, or the
defensive unreachable `TypeError` branch. -/
inductive ProcessResult where
  | responseExit (status : Nat)
  | contribution (event : PullRequestEvent)
  | typeError
deriving DecidableEq, Repr

/-- `Host.process`: classify an inbound request.  Content type other than
application/json exits with 415; a ping (`zen` key), an action outside
`_useful_actions`, and an `unlabeled` action whose removed label lacks the
CLA marker all exit with 204; otherwise a contribution is constructed. -/
def process (content_type : String) (p : Payload) : ProcessResult :=
  if content_type ≠ "application/json" then
    ProcessResult.responseExit 415
  else if p.hasZen then
    ProcessResult.responseExit 204
  else if p.action ∉ _useful_actions then
    ProcessResult.responseExit 204
  else if p.action = PullRequestEvent.opened.value then
    ProcessResult.contribution PullRequestEvent.opened
  else if p.action = PullRequestEvent.unlabeled.value then
    if ¬ (strStarts p.labelName LABEL_MARK) then
      ProcessResult.responseExit 204
    else
      ProcessResult.contribution PullRequestEvent.unlabeled
  else if p.action = PullRequestEvent.synchronize.value then
    ProcessResult.contribution PullRequestEvent.synchronize
  else
    ProcessResult.typeError

/-- `Host.check_response`: raise `client.HTTPException` (modelled as the
error case, carrying the offending status) when the response status is
300 or more. -/
def check_response (status : Nat) : Except Nat Unit :=
  if status ≥ 300 then Except.error status else Except.ok ()

/-- `Host.get`: perform a GET; the response is checked before its JSON
body is returned. -/
def get {α : Type} (status : Nat) (body : α) : Except Nat α :=
  match check_response status with
  | Except.error e => Except.error e
  | Except.ok _ => Except.ok body

/-- The two logins `Host.usernames` reads off each commit object:
`commit.author.login` and `commit.committer.login`. -/
structure Commit where
  author : String
  committer : String
deriving DecidableEq, Repr

/-- `Host.usernames`: the frozen set of contributor logins, seeded with
the pull request author and extended with each commit author and
committer. -/
def usernames (author : String) (commits : List Commit) : Finset String :=
  commits.foldl (fun s c => insert c.committer (insert c.author s)) {author}

/-- A label object as returned by the labels endpoint; only its `name`
field is read. -/
structure Label where
  name : String
deriving DecidableEq, Repr

/-- The observable GitHub-side state of one pull request: its issue
labels and its comments. -/
structure PRState where
  labels : List Label
  comments : List String
deriving DecidableEq, Repr

/-- An outbound mutation performed by the handler: a label POST, a label
DELETE, or a comment POST.  GET calls are read-only and carry no
mutation. -/
inductive Mutation where
  | addLabel (name : String)
  | delLabel (name : String)
  | postComment (body : String)
deriving DecidableEq, Repr

/-- GitHub semantics of one mutation: a label POST adds the label when
absent, a label DELETE removes the named label, a comment POST appends
the comment. -/
def applyMutation (st : PRState) (m : Mutation) : PRState :=
  match m with
  | Mutation.addLabel n =>
      if st.labels.any (fun l => l.name = n) then st
      else { st with labels := st.labels ++ [⟨n⟩] }
  | Mutation.delLabel n =>
      { st with labels := st.labels.filter (fun l => l.name ≠ n) }
  | Mutation.postComment b =>
      { st with comments := st.comments ++ [b] }

/-- Apply a list of mutations in order. -/
def applyAll (st : PRState) (ms : List Mutation) : PRState :=
  ms.foldl applyMutation st

/-- The CLA-related label names on the pull request: all label names
filtered by the CLA marker (the filtering step of `Host.current_label`). -/
def claNames (st : PRState) : List String :=
  (st.labels.map Label.name).filter (fun s => strStarts s LABEL_MARK)

/-- `Host.current_label`: the CLA-related label names, sorted, first one
if any. -/
def current_label (st : PRState) : Option String :=
  (List.insertionSort strLe (claNames st)).head?

/-- `Host.set_label`: POST `CLA_OK` when the status is signed, `NO_CLA`
otherwise; returns the label that was set together with the mutation
performed. -/
def set_label (status : Status) : String × List Mutation :=
  if status = Status.signed then (CLA_OK, [Mutation.addLabel CLA_OK])
  else (NO_CLA, [Mutation.addLabel NO_CLA])

/-- `Host.remove_label`: look up the current CLA label; when none exists
return `none` with no mutation, otherwise DELETE it and return it. -/
def remove_label (st : PRState) : Option String × List Mutation :=
  match current_label st with
  | none => (none, [])
  | some l => (some l, [Mutation.delLabel l])

/-- `Host.comment`: signed posts nothing; the two failure statuses post
their templated message; returns the message together with the mutation
performed. -/
def comment (status : Status) : Option String × List Mutation :=
  match status with
  | Status.signed => (none, [])
  | Status.not_signed =>
      (some (NO_CLA_TEMPLATE NO_CLA_BODY),
       [Mutation.postComment (NO_CLA_TEMPLATE NO_CLA_BODY)])
  | Status.username_not_found =>
      (some (NO_CLA_TEMPLATE NO_USERNAME_BODY),
       [Mutation.postComment (NO_CLA_TEMPLATE NO_USERNAME_BODY)])

/-- `Host.update`: the reconciler.  `opened` sets the label then
comments; `unlabeled` only sets the label; `synchronize` compares the
current label against the target and, on disagreement, removes the
current label (and comments for the two failure statuses).  Events other
than these three fall into the defensive unreachable branch, modelled as
`none`. -/
def update (ev : PullRequestEvent) (st : PRState) (status : Status) :
    Option (List Mutation) :=
  match ev with
  | PullRequestEvent.opened =>
      some ((set_label status).2 ++ (comment status).2)
  | PullRequestEvent.unlabeled =>
      some (set_label status).2
  | PullRequestEvent.synchronize =>
      some (if status = Status.signed then
              (if current_label st ≠ some CLA_OK then (remove_label st).2 else [])
            else
              (if current_label st ≠ some NO_CLA then
                 (remove_label st).2 ++ (comment status).2
               else []))
  | _ => none

/-- Modelled from the spec: the CLA Status Aggregator reduction (section
4.3; the aggregation code is not under `src/`).  Precedence:
`username_not_found` beats `not_signed` beats `signed`. -/
def reduceStatuses (verdicts : List Status) : Status :=
  if Status.username_not_found ∈ verdicts then Status.username_not_found
  else if Status.not_signed ∈ verdicts then Status.not_signed
  else Status.signed

/-! ### Helper lemmas -/

/-- Membership in the login-collecting fold of `usernames`. -/
theorem mem_usernames_fold (x : String) (commits : List Commit) :
    ∀ s : Finset String,
      x ∈ commits.foldl (fun s c => insert c.committer (insert c.author s)) s ↔
        x ∈ s ∨ ∃ c ∈ commits, x = c.author ∨ x = c.committer := by
  induction commits with
  | nil => intro s; simp
  | cons c t ih =>
      intro s
      rw [List.foldl_cons, ih]
      simp only [Finset.mem_insert, List.mem_cons]
      constructor
      · rintro (h | h)
        · rcases h with h | h | h
          · exact Or.inr ⟨c, Or.inl rfl, Or.inr h⟩
          · exact Or.inr ⟨c, Or.inl rfl, Or.inl h⟩
          · exact Or.inl h
        · rcases h with ⟨c', hc', hx⟩
          exact Or.inr ⟨c', Or.inr hc', hx⟩
      · rintro (h | ⟨c', hc' | hc', hx⟩)
        · exact Or.inl (Or.inr (Or.inr h))
        · subst hc'
          rcases hx with hx | hx
          · exact Or.inl (Or.inr (Or.inl hx))
          · exact Or.inl (Or.inl hx)
        · exact Or.inr ⟨c', hc', hx⟩

/-! ### Claim theorems -/

/-- C9: an outbound response status at or above 300 makes
`check_response` fail with an error carrying that status (and `get`
propagates the error, returning no body); a status below 300 never
raises it. -/
theorem check_response_threshold (s : Nat) {α : Type} (body : α) :
    (s ≥ 300 → check_response s = Except.error s ∧ get s body = Except.error s) ∧
    (s < 300 → check_response s = Except.ok () ∧ get s body = Except.ok body) := by
  refine ⟨fun h => ?_, fun h => ?_⟩
  · simp [check_response, get, h]
  · have h300 : ¬ s ≥ 300 := by omega
    simp [check_response, get, h300]

/-- Witness for C9 at statuses 404 and 200. -/
theorem check_response_threshold_witness :
    (404 ≥ 300 ∧ check_response 404 = Except.error 404 ∧
       get 404 (0 : Nat) = Except.error 404) ∧
    (200 < 300 ∧ check_response 200 = Except.ok () ∧
       get 200 (0 : Nat) = Except.ok 0) :=
  ⟨⟨by decide, (check_response_threshold 404 (0 : Nat)).1 (by decide)⟩,
   ⟨by decide, (check_response_threshold 200 (0 : Nat)).2 (by decide)⟩⟩

/-- C6: a content type other than application/json makes `process` exit
with HTTP 415 (so no contribution is constructed and no outbound call is
modelled); with the JSON content type the 415 exit never occurs. -/
theorem process_content_type_check (ct : String) (p : Payload) :
    (ct ≠ "application/json" → process ct p = ProcessResult.responseExit 415) ∧
    (ct = "application/json" → process ct p ≠ ProcessResult.responseExit 415) := by
  constructor
  · intro h
    simp [process, h]
  · intro h
    subst h
    simp only [process]
    split_ifs with h1 <;> first | (exact absurd rfl h1) | simp

/-- Witness for C6 at a form-encoded content type and at the JSON one. -/
theorem process_content_type_check_witness :
    ("application/x-www-form-urlencoded" ≠ "application/json" ∧
       process "application/x-www-form-urlencoded" ⟨false, "opened", ""⟩ =
         ProcessResult.responseExit 415) ∧
    ("application/json" = "application/json" ∧
       process "application/json" ⟨false, "opened", ""⟩ ≠
         ProcessResult.responseExit 415) :=
  ⟨⟨by decide, (process_content_type_check _ _).1 (by decide)⟩,
   ⟨rfl, (process_content_type_check _ _).2 rfl⟩⟩

/-- C4: the aggregator reduction gives `username_not_found` as soon as
one verdict is `username_not_found`, otherwise `not_signed` as soon as
one verdict is `not_signed`, otherwise `signed`; in particular
all-signed verdict lists reduce to `signed`. -/
theorem reduce_statuses_precedence (vs : List Status) :
    (Status.username_not_found ∈ vs →
        reduceStatuses vs = Status.username_not_found) ∧
    (Status.username_not_found ∉ vs → Status.not_signed ∈ vs →
        reduceStatuses vs = Status.not_signed) ∧
    (Status.username_not_found ∉ vs → Status.not_signed ∉ vs →
        reduceStatuses vs = Status.signed) ∧
    ((∀ v ∈ vs, v = Status.signed) → reduceStatuses vs = Status.signed) := by
  refine ⟨fun h => ?_, fun h1 h2 => ?_, fun h1 h2 => ?_, fun hall => ?_⟩
  · simp [reduceStatuses, h]
  · simp [reduceStatuses, h1, h2]
  · simp [reduceStatuses, h1, h2]
  · have h1 : Status.username_not_found ∉ vs := fun hmem =>
      absurd (hall _ hmem) (by decide)
    have h2 : Status.not_signed ∉ vs := fun hmem =>
      absurd (hall _ hmem) (by decide)
    simp [reduceStatuses, h1, h2]

/-- Witness for C4 on the verdict list [signed, not_signed] and on the
all-signed list [signed, signed]. -/
theorem reduce_statuses_precedence_witness :
    (Status.username_not_found ∉ [Status.signed, Status.not_signed] ∧
       Status.not_signed ∈ [Status.signed, Status.not_signed] ∧
       reduceStatuses [Status.signed, Status.not_signed] = Status.not_signed) ∧
    reduceStatuses [Status.signed, Status.signed] = Status.signed :=
  ⟨⟨by decide, by decide,
      (reduce_statuses_precedence _).2.1 (by decide) (by decide)⟩,
   (reduce_statuses_precedence _).2.2.2 (by decide)⟩

/-- C7: membership in the username set is exactly: the pull request
author, or an author or committer of one of the fetched commits;
duplicates are collapsed because the result is a finite set. -/
theorem usernames_exact_membership (author : String) (commits : List Commit)
    (x : String) :
    x ∈ usernames author commits ↔
      x = author ∨ ∃ c ∈ commits, x = c.author ∨ x = c.committer := by
  rw [usernames, mem_usernames_fold]
  simp

/-- Witness for C7: a committer login is a member. -/
theorem usernames_exact_membership_witness :
    "c" ∈ usernames "a" [⟨"b", "c"⟩] :=
  (usernames_exact_membership "a" [⟨"b", "c"⟩] "c").mpr (by decide)

/-- C10: the username set always contains the pull request author, hence
is non-empty, and on an empty commit list it is exactly the author
singleton; immutability holds because the result is a `Finset` value. -/
theorem usernames_author_nonempty (author : String) (commits : List Commit) :
    author ∈ usernames author commits ∧
    (usernames author commits).Nonempty ∧
    (commits = [] → usernames author commits = {author}) := by
  have h : author ∈ usernames author commits := by
    rw [usernames, mem_usernames_fold]
    exact Or.inl (Finset.mem_singleton_self _)
  exact ⟨h, ⟨author, h⟩, fun hc => by subst hc; rfl⟩

/-- Witness for C10 on the empty commit list. -/
theorem usernames_author_nonempty_witness :
    "a" ∈ usernames "a" [] ∧ usernames "a" [] = {"a"} :=
  ⟨(usernames_author_nonempty "a" []).1,
   (usernames_author_nonempty "a" []).2.2 rfl⟩

/-- The current label, when present, is a CLA name of the pull request
and is minimal among them in the Python string order. -/
theorem current_label_min (st : PRState) (l : String)
    (hcur : current_label st = some l) :
    l ∈ claNames st ∧ ∀ x ∈ claNames st, strLe l x := by
  unfold current_label at hcur
  rcases hS : List.insertionSort strLe (claNames st) with _ | ⟨a, t⟩
  · rw [hS] at hcur
    simp at hcur
  · rw [hS] at hcur
    simp only [List.head?_cons, Option.some.injEq] at hcur
    subst hcur
    have hsorted : List.Sorted strLe (List.insertionSort strLe (claNames st)) :=
      List.sorted_insertionSort strLe (claNames st)
    rw [hS, List.sorted_cons] at hsorted
    constructor
    · have ha : a ∈ List.insertionSort strLe (claNames st) := by
        rw [hS]
        exact List.mem_cons_self _ _
      exact (List.mem_insertionSort strLe).mp ha
    · intro x hx
      have hxS : x ∈ List.insertionSort strLe (claNames st) :=
        (List.mem_insertionSort strLe).mpr hx
      rw [hS] at hxS
      rcases List.mem_cons.mp hxS with rfl | hxt
      · exact le_refl x.data
      · exact hsorted.1 x hxt

/-- C5: over the JSON content type, `process` answers HTTP 204 (no
action) exactly for pings, for actions outside `_useful_actions`, and
for `unlabeled` actions whose removed label lacks the CLA marker; in
every other case it builds a contribution whose event value matches the
payload action. -/
theorem process_no_action_characterization (p : Payload) :
    (process "application/json" p = ProcessResult.responseExit 204 ↔
       p.hasZen = true ∨ p.action ∉ _useful_actions ∨
         (p.action = PullRequestEvent.unlabeled.value ∧
          strStarts p.labelName LABEL_MARK = false)) ∧
    (process "application/json" p ≠ ProcessResult.responseExit 204 →
       ∃ ev, process "application/json" p = ProcessResult.contribution ev ∧
         PullRequestEvent.value ev = p.action) := by
  constructor
  · by_cases hz : p.hasZen
    · simp [process, hz]
    · by_cases ho : p.action = "opened"
      · simp [process, hz, ho, _useful_actions, PullRequestEvent.value]
      · by_cases hun : p.action = "unlabeled"
        · by_cases hl : strStarts p.labelName LABEL_MARK
          · simp [process, hz, ho, hun, hl, _useful_actions, PullRequestEvent.value]
          · simp only [Bool.not_eq_true] at hl
            simp [process, hz, ho, hun, hl, _useful_actions, PullRequestEvent.value]
        · by_cases hs : p.action = "synchronize"
          · simp [process, hz, ho, hun, hs, _useful_actions, PullRequestEvent.value]
          · simp [process, hz, ho, hun, hs, _useful_actions, PullRequestEvent.value]
  · intro h204
    by_cases hz : p.hasZen
    · exact absurd (by simp [process, hz]) h204
    · by_cases ho : p.action = "opened"
      · refine ⟨PullRequestEvent.opened, ?_, ?_⟩
        · simp [process, hz, ho, _useful_actions, PullRequestEvent.value]
        · simp [PullRequestEvent.value, ho]
      · by_cases hun : p.action = "unlabeled"
        · by_cases hl : strStarts p.labelName LABEL_MARK
          · refine ⟨PullRequestEvent.unlabeled, ?_, ?_⟩
            · simp [process, hz, ho, hun, hl, _useful_actions, PullRequestEvent.value]
            · simp [PullRequestEvent.value, hun]
          · simp only [Bool.not_eq_true] at hl
            exact absurd
              (by simp [process, hz, ho, hun, hl, _useful_actions,
                    PullRequestEvent.value]) h204
        · by_cases hs : p.action = "synchronize"
          · refine ⟨PullRequestEvent.synchronize, ?_, ?_⟩
            · simp [process, hz, ho, hun, hs, _useful_actions, PullRequestEvent.value]
            · simp [PullRequestEvent.value, hs]
          · exact absurd
              (by simp [process, hz, ho, hun, hs, _useful_actions,
                    PullRequestEvent.value]) h204

/-- Witness for C5: a closed pull request is discarded with 204, a
synchronize payload builds a matching contribution. -/
theorem process_no_action_characterization_witness :
    process "application/json" ⟨false, "closed", ""⟩ =
      ProcessResult.responseExit 204 ∧
    process "application/json" ⟨false, "synchronize", ""⟩ ≠
      ProcessResult.responseExit 204 ∧
    (∃ ev, process "application/json" ⟨false, "synchronize", ""⟩ =
        ProcessResult.contribution ev ∧
        PullRequestEvent.value ev = "synchronize") :=
  ⟨(process_no_action_characterization ⟨false, "closed", ""⟩).1.mpr (by decide),
   by decide,
   (process_no_action_characterization ⟨false, "synchronize", ""⟩).2 (by decide)⟩

/-- C8: `remove_label` is a no-op returning `none` exactly when the pull
request carries no CLA-marked label; otherwise it returns the
lexicographically first CLA-marked label name and issues exactly one
DELETE, for that label. -/
theorem remove_label_spec (st : PRState) :
    (remove_label st = (none, []) ↔ claNames st = []) ∧
    (∀ l ms, remove_label st = (some l, ms) →
       ms = [Mutation.delLabel l] ∧ l ∈ claNames st ∧
         ∀ x ∈ claNames st, l ≤ x) := by
  constructor
  · rcases hcur : current_label st with _ | a
    · simp only [remove_label, hcur]
      unfold current_label at hcur
      rcases hS : List.insertionSort strLe (claNames st) with _ | ⟨b, t⟩
      · have hperm : List.Perm (List.insertionSort strLe (claNames st))
            (claNames st) :=
          List.perm_insertionSort strLe (claNames st)
        rw [hS] at hperm
        simp [hperm.symm.eq_nil]
      · rw [hS] at hcur
        simp at hcur
    · simp only [remove_label, hcur]
      have hmem := (current_label_min st a hcur).1
      constructor
      · intro h
        exact absurd h (by simp)
      · intro h
        rw [h] at hmem
        exact absurd hmem (List.not_mem_nil a)
  · intro l ms h
    rcases hcur : current_label st with _ | a
    · simp [remove_label, hcur] at h
    · simp only [remove_label, hcur, Prod.mk.injEq, Option.some.injEq] at h
      rcases h with ⟨rfl, rfl⟩
      obtain ⟨hmem, hmin⟩ := current_label_min st a hcur
      exact ⟨rfl, hmem, fun x hx => String.le_iff_toList_le.mpr (hmin x hx)⟩

/-- Witness for C8: two CLA labels present, the alphabetically first is
deleted and returned. -/
theorem remove_label_spec_witness :
    remove_label ⟨[⟨CLA_OK⟩, ⟨NO_CLA⟩], []⟩ =
      (some NO_CLA, [Mutation.delLabel NO_CLA]) ∧
    ([Mutation.delLabel NO_CLA] = [Mutation.delLabel NO_CLA] ∧
      NO_CLA ∈ claNames ⟨[⟨CLA_OK⟩, ⟨NO_CLA⟩], []⟩ ∧
      ∀ x ∈ claNames ⟨[⟨CLA_OK⟩, ⟨NO_CLA⟩], []⟩, NO_CLA ≤ x) :=
  ⟨by decide,
   (remove_label_spec ⟨[⟨CLA_OK⟩, ⟨NO_CLA⟩], []⟩).2 NO_CLA
     [Mutation.delLabel NO_CLA] (by decide)⟩

/-- Deleting a label filters its name out of the CLA name list. -/
theorem claNames_delLabel (st : PRState) (n : String) :
    claNames (applyMutation st (Mutation.delLabel n)) =
      (claNames st).filter (fun s => s ≠ n) := by
  obtain ⟨ls, cs⟩ := st
  show ((ls.filter fun lab => lab.name ≠ n).map Label.name).filter
      (fun s => strStarts s LABEL_MARK) =
    (((ls.map Label.name).filter fun s => strStarts s LABEL_MARK).filter
      fun s => s ≠ n)
  rw [List.filter_map, List.filter_filter, List.filter_filter, List.filter_map]
  exact congrArg (List.map Label.name)
    (List.filter_congr (fun a _ => by simp [Function.comp, Bool.and_comm]))

/-- With at most one CLA-marked label, a present current label is the
whole CLA name list. -/
theorem claNames_eq_singleton (st : PRState) (l : String)
    (hone : (claNames st).length ≤ 1) (hcur : current_label st = some l) :
    claNames st = [l] := by
  have hmem := (current_label_min st l hcur).1
  rcases hN : claNames st with _ | ⟨a, t⟩
  · rw [hN] at hmem
    exact absurd hmem (List.not_mem_nil _)
  · rw [hN] at hmem hone
    have ht : t = [] := by
      cases t with
      | nil => rfl
      | cons b u => simp at hone
    subst ht
    rcases List.mem_singleton.mp hmem with rfl
    rfl

/-- A pull request with no CLA-marked label has no current label. -/
theorem current_label_of_claNames_nil (st : PRState) (h : claNames st = []) :
    current_label st = none := by
  unfold current_label
  rw [h]
  rfl

/-- C1: for a synchronize event, a signed status with a current label
other than `CLA_OK` removes the present CLA label and posts nothing; a
failure status with a current label other than `NO_CLA` removes the
present CLA label and then posts the status comment; a current label
already matching the target of the status yields no mutation at all. -/
theorem sync_update_matches_table (st : PRState) (s : Status)
    (muts : List Mutation)
    (h : update PullRequestEvent.synchronize st s = some muts) :
    (s = Status.signed → current_label st ≠ some CLA_OK →
       (∀ l, current_label st = some l → muts = [Mutation.delLabel l]) ∧
       (current_label st = none → muts = []) ∧
       (∀ b, Mutation.postComment b ∉ muts)) ∧
    (s ≠ Status.signed → current_label st ≠ some NO_CLA →
       (∀ l, current_label st = some l →
          muts = Mutation.delLabel l :: (comment s).2) ∧
       (current_label st = none → muts = (comment s).2) ∧
       (∃ b, (comment s).2 = [Mutation.postComment b])) ∧
    (s = Status.signed → current_label st = some CLA_OK → muts = []) ∧
    (s ≠ Status.signed → current_label st = some NO_CLA → muts = []) := by
  simp only [update, Option.some.injEq] at h
  cases s with
  | signed =>
      rw [if_pos rfl] at h
      refine ⟨fun _ hcur => ?_, fun hs => absurd rfl hs, fun _ hcur => ?_,
        fun hs => absurd rfl hs⟩
      · rw [if_pos hcur] at h
        subst h
        refine ⟨fun l hl => by simp [remove_label, hl],
          fun hl => by simp [remove_label, hl], fun b => ?_⟩
        rcases hl : current_label st with _ | l <;> simp [remove_label, hl]
      · rw [if_neg (by simp [hcur])] at h
        exact h.symm
  | not_signed =>
      rw [if_neg (by decide)] at h
      refine ⟨fun hs => absurd hs (by decide), fun _ hcur => ?_,
        fun hs => absurd hs (by decide), fun _ hcur => ?_⟩
      · rw [if_pos hcur] at h
        subst h
        exact ⟨fun l hl => by simp [remove_label, hl],
          fun hl => by simp [remove_label, hl],
          ⟨NO_CLA_TEMPLATE NO_CLA_BODY, rfl⟩⟩
      · rw [if_neg (by simp [hcur])] at h
        exact h.symm
  | username_not_found =>
      rw [if_neg (by decide)] at h
      refine ⟨fun hs => absurd hs (by decide), fun _ hcur => ?_,
        fun hs => absurd hs (by decide), fun _ hcur => ?_⟩
      · rw [if_pos hcur] at h
        subst h
        exact ⟨fun l hl => by simp [remove_label, hl],
          fun hl => by simp [remove_label, hl],
          ⟨NO_CLA_TEMPLATE NO_USERNAME_BODY, rfl⟩⟩
      · rw [if_neg (by simp [hcur])] at h
        exact h.symm

/-- Witness for C1: synchronize, current label `CLA_OK`, status
not signed: the label is deleted, then the comment posted. -/
theorem sync_update_matches_table_witness :
    [Mutation.delLabel CLA_OK,
     Mutation.postComment (NO_CLA_TEMPLATE NO_CLA_BODY)] =
      Mutation.delLabel CLA_OK :: (comment Status.not_signed).2 :=
  ((sync_update_matches_table ⟨[⟨CLA_OK⟩], []⟩ Status.not_signed
      [Mutation.delLabel CLA_OK,
       Mutation.postComment (NO_CLA_TEMPLATE NO_CLA_BODY)]
      (by decide)).2.1 (by decide) (by decide)).1 CLA_OK (by decide)

/-- C3: an opened event sets `CLA_OK` for a signed status and `NO_CLA`
otherwise and then posts the status comment, which is skipped entirely
when signed; an unlabeled event sets the label the same way and never
posts a comment. -/
theorem opened_unlabeled_update_spec (st : PRState) (s : Status)
    (mo mu : List Mutation)
    (ho : update PullRequestEvent.opened st s = some mo)
    (hu : update PullRequestEvent.unlabeled st s = some mu) :
    (s = Status.signed → mo = [Mutation.addLabel CLA_OK]) ∧
    (s ≠ Status.signed →
       ∃ b, mo = [Mutation.addLabel NO_CLA, Mutation.postComment b]) ∧
    mu = [Mutation.addLabel (if s = Status.signed then CLA_OK else NO_CLA)] ∧
    (∀ b, Mutation.postComment b ∉ mu) := by
  simp only [update, Option.some.injEq] at ho hu
  subst ho
  subst hu
  cases s with
  | signed =>
      refine ⟨fun _ => by simp [set_label, comment], fun hs => absurd rfl hs,
        by simp [set_label], fun b => by simp [set_label]⟩
  | not_signed =>
      refine ⟨fun hs => absurd hs (by decide),
        fun _ => ⟨NO_CLA_TEMPLATE NO_CLA_BODY, by simp [set_label, comment]⟩,
        by simp [set_label], fun b => by simp [set_label]⟩
  | username_not_found =>
      refine ⟨fun hs => absurd hs (by decide),
        fun _ => ⟨NO_CLA_TEMPLATE NO_USERNAME_BODY, by simp [set_label, comment]⟩,
        by simp [set_label], fun b => by simp [set_label]⟩

/-- Witness for C3: opened and signed on a bare pull request. -/
theorem opened_unlabeled_update_spec_witness :
    update PullRequestEvent.opened ⟨[], []⟩ Status.signed =
      some [Mutation.addLabel CLA_OK] ∧
    [Mutation.addLabel CLA_OK] = [Mutation.addLabel CLA_OK] :=
  ⟨by decide,
   (opened_unlabeled_update_spec ⟨[], []⟩ Status.signed
      [Mutation.addLabel CLA_OK] [Mutation.addLabel CLA_OK]
      (by decide) (by decide)).1 rfl⟩

/-- C2 fails on the code: synchronize with status not signed and current
label `CLA_OK` removes the label and comments on the first run, and the
second run, seeing no label, posts the comment again, so a second
mutation happens and the state after two runs differs. -/
theorem sync_second_run_reposts_comment :
    update PullRequestEvent.synchronize ⟨[⟨CLA_OK⟩], []⟩ Status.not_signed =
      some [Mutation.delLabel CLA_OK,
            Mutation.postComment (NO_CLA_TEMPLATE NO_CLA_BODY)] ∧
    update PullRequestEvent.synchronize
        (applyAll ⟨[⟨CLA_OK⟩], []⟩
          [Mutation.delLabel CLA_OK,
           Mutation.postComment (NO_CLA_TEMPLATE NO_CLA_BODY)])
        Status.not_signed =
      some [Mutation.postComment (NO_CLA_TEMPLATE NO_CLA_BODY)] ∧
    ([Mutation.postComment (NO_CLA_TEMPLATE NO_CLA_BODY)] : List Mutation) ≠ [] ∧
    applyAll
        (applyAll ⟨[⟨CLA_OK⟩], []⟩
          [Mutation.delLabel CLA_OK,
           Mutation.postComment (NO_CLA_TEMPLATE NO_CLA_BODY)])
        [Mutation.postComment (NO_CLA_TEMPLATE NO_CLA_BODY)] ≠
      applyAll ⟨[⟨CLA_OK⟩], []⟩
        [Mutation.delLabel CLA_OK,
         Mutation.postComment (NO_CLA_TEMPLATE NO_CLA_BODY)] :=
  ⟨by decide, by decide, by decide, by decide⟩

/-- C2 (amended): on a pull request with at most one CLA-marked label, a
second synchronize run issues no label mutation and leaves the labels
unchanged; it issues no mutation at all when the status is signed or the
current label is already `NO_CLA`; for a failure status with any other
current label it posts exactly the status comment a second time. -/
theorem sync_second_run_no_label_mutations (st : PRState) (s : Status)
    (hone : (claNames st).length ≤ 1)
    (m1 m2 : List Mutation)
    (h1 : update PullRequestEvent.synchronize st s = some m1)
    (h2 : update PullRequestEvent.synchronize (applyAll st m1) s = some m2) :
    (∀ n, Mutation.addLabel n ∉ m2 ∧ Mutation.delLabel n ∉ m2) ∧
    (s = Status.signed → m2 = []) ∧
    (current_label st = some NO_CLA → m2 = []) ∧
    (s ≠ Status.signed → current_label st ≠ some NO_CLA → m2 = (comment s).2) ∧
    (applyAll (applyAll st m1) m2).labels = (applyAll st m1).labels := by
  simp only [update, Option.some.injEq] at h1 h2
  cases s with
  | signed =>
      rw [if_pos rfl] at h1 h2
      rcases hcur : current_label st with _ | l
      · rw [if_pos (by simp [hcur])] at h1
        simp only [remove_label, hcur] at h1
        subst h1
        rw [show applyAll st [] = st from rfl, if_pos (by simp [hcur])] at h2
        simp only [remove_label, hcur] at h2
        subst h2
        exact ⟨fun n => by simp, fun _ => rfl, fun _ => rfl, fun hs => absurd rfl hs,
          rfl⟩
      · by_cases hOK : l = CLA_OK
        · subst hOK
          rw [if_neg (by simp [hcur])] at h1
          subst h1
          rw [show applyAll st [] = st from rfl, if_neg (by simp [hcur])] at h2
          subst h2
          exact ⟨fun n => by simp, fun _ => rfl, fun _ => rfl,
            fun hs => absurd rfl hs, rfl⟩
        · rw [if_pos (by simp [hcur, hOK])] at h1
          simp only [remove_label, hcur] at h1
          subst h1
          have hdel : claNames (applyAll st [Mutation.delLabel l]) = [] := by
            rw [show applyAll st [Mutation.delLabel l] =
                  applyMutation st (Mutation.delLabel l) from rfl,
              claNames_delLabel, claNames_eq_singleton st l hone hcur]
            simp
          have hnone := current_label_of_claNames_nil _ hdel
          rw [if_pos (by simp [hnone])] at h2
          simp only [remove_label, hnone] at h2
          subst h2
          exact ⟨fun n => by simp, fun _ => rfl, fun _ => rfl,
            fun hs => absurd rfl hs, rfl⟩
  | not_signed =>
      rw [if_neg (by decide)] at h1 h2
      rcases hcur : current_label st with _ | l
      · rw [if_pos (by simp [hcur])] at h1
        simp only [remove_label, hcur, List.nil_append] at h1
        subst h1
        have hlab : (applyAll st (comment Status.not_signed).2).labels = st.labels := by
          simp [comment, applyAll, applyMutation]
        have hcla : claNames (applyAll st (comment Status.not_signed).2) =
            claNames st := by
          simp only [claNames, hlab]
        have hnone : current_label (applyAll st (comment Status.not_signed).2) =
            none := by
          unfold current_label
          rw [hcla]
          unfold current_label at hcur
          exact hcur
        rw [if_pos (by simp [hnone])] at h2
        simp only [remove_label, hnone, List.nil_append] at h2
        subst h2
        refine ⟨fun n => by simp [comment], fun hs => absurd hs (by decide),
          fun hc => absurd hc (by simp [hcur]), fun _ _ => rfl, ?_⟩
        simp [comment, applyAll, applyMutation]
      · by_cases hNO : l = NO_CLA
        · subst hNO
          rw [if_neg (by simp [hcur])] at h1
          subst h1
          rw [show applyAll st [] = st from rfl, if_neg (by simp [hcur])] at h2
          subst h2
          exact ⟨fun n => by simp, fun hs => absurd hs (by decide), fun _ => rfl,
            fun _ hne => absurd rfl hne, rfl⟩
        · rw [if_pos (by simp [hcur, hNO])] at h1
          simp only [remove_label, hcur] at h1
          subst h1
          have hdel : claNames (applyAll st
              ([Mutation.delLabel l] ++ (comment Status.not_signed).2)) = [] := by
            rw [show claNames (applyAll st
                  ([Mutation.delLabel l] ++ (comment Status.not_signed).2)) =
                claNames (applyMutation st (Mutation.delLabel l)) from rfl,
              claNames_delLabel, claNames_eq_singleton st l hone hcur]
            simp
          have hnone := current_label_of_claNames_nil _ hdel
          rw [if_pos (by rw [hnone]; simp)] at h2
          simp only [remove_label, hnone, List.nil_append] at h2
          subst h2
          refine ⟨fun n => by simp [comment], fun hs => absurd hs (by decide),
            fun hc => absurd (Option.some.inj hc) hNO, fun _ _ => rfl, ?_⟩
          simp [comment, applyAll, applyMutation]
  | username_not_found =>
      rw [if_neg (by decide)] at h1 h2
      rcases hcur : current_label st with _ | l
      · rw [if_pos (by simp [hcur])] at h1
        simp only [remove_label, hcur, List.nil_append] at h1
        subst h1
        have hlab : (applyAll st (comment Status.username_not_found).2).labels =
            st.labels := by
          simp [comment, applyAll, applyMutation]
        have hcla : claNames (applyAll st (comment Status.username_not_found).2) =
            claNames st := by
          simp only [claNames, hlab]
        have hnone : current_label
            (applyAll st (comment Status.username_not_found).2) = none := by
          unfold current_label
          rw [hcla]
          unfold current_label at hcur
          exact hcur
        rw [if_pos (by simp [hnone])] at h2
        simp only [remove_label, hnone, List.nil_append] at h2
        subst h2
        refine ⟨fun n => by simp [comment], fun hs => absurd hs (by decide),
          fun hc => absurd hc (by simp [hcur]), fun _ _ => rfl, ?_⟩
        simp [comment, applyAll, applyMutation]
      · by_cases hNO : l = NO_CLA
        · subst hNO
          rw [if_neg (by simp [hcur])] at h1
          subst h1
          rw [show applyAll st [] = st from rfl, if_neg (by simp [hcur])] at h2
          subst h2
          exact ⟨fun n => by simp, fun hs => absurd hs (by decide), fun _ => rfl,
            fun _ hne => absurd rfl hne, rfl⟩
        · rw [if_pos (by simp [hcur, hNO])] at h1
          simp only [remove_label, hcur] at h1
          subst h1
          have hdel : claNames (applyAll st
              ([Mutation.delLabel l] ++
                (comment Status.username_not_found).2)) = [] := by
            rw [show claNames (applyAll st
                  ([Mutation.delLabel l] ++
                    (comment Status.username_not_found).2)) =
                claNames (applyMutation st (Mutation.delLabel l)) from rfl,
              claNames_delLabel, claNames_eq_singleton st l hone hcur]
            simp
          have hnone := current_label_of_claNames_nil _ hdel
          rw [if_pos (by rw [hnone]; simp)] at h2
          simp only [remove_label, hnone, List.nil_append] at h2
          subst h2
          refine ⟨fun n => by simp [comment], fun hs => absurd hs (by decide),
            fun hc => absurd (Option.some.inj hc) hNO, fun _ _ => rfl, ?_⟩
          simp [comment, applyAll, applyMutation]

/-- Witness for C2 (amended): synchronize twice from label `CLA_OK` with
status not signed; the second run is exactly one repeated comment. -/
theorem sync_second_run_no_label_mutations_witness :
    [Mutation.postComment (NO_CLA_TEMPLATE NO_CLA_BODY)] =
      (comment Status.not_signed).2 :=
  (sync_second_run_no_label_mutations ⟨[⟨CLA_OK⟩], []⟩ Status.not_signed
      (by decide)
      [Mutation.delLabel CLA_OK,
       Mutation.postComment (NO_CLA_TEMPLATE NO_CLA_BODY)]
      [Mutation.postComment (NO_CLA_TEMPLATE NO_CLA_BODY)]
      (by decide) (by decide)).2.2.2.1 (by decide) (by decide)

end Ni
